import Mathlib

/-!
# Verification of the blog-api ordering / scoped-uniqueness core

Shallow embedding of the ordering-assignment and scoped-uniqueness logic of
the blog-api repository ("app/core/fields.py", "app/post/models.py",
"app/post/migrations/0001_initial.py") together with theorems settling the
specification's claims about it.

Modelling conventions:
* Persisted state is a `List` of records; a record's `pk` is `some k` once
  persisted and `none` while in flight.
* A Django queryset `filter(a=x, b=y)` is a `List.filter`; `exclude(pk=self.pk)`
  is a further filter keeping records whose `pk` differs (for an in-flight
  record `self.pk` is `none`, and `exclude(pk=None)` excludes nothing, exactly
  as in Django where `pk=None` means `pk IS NULL`).
* `full_clean` is modelled by the model's own `clean` method, which is the
  only part of Django validation the repository defines; framework-level
  field validation (max lengths, slug character set) is out of scope here.
* `Model.save` returning normally is `Except.ok (newStore, savedRecord)`;
  a `ValidationError` is `Except.error e` and persists nothing.
-/

namespace Blog

/-- Validation errors raised by the models' `clean` methods
(`ValidationError` with the corresponding message). -/
inductive Err where
  | duplicateSlug
  | duplicateOrdering
  deriving Repr, DecidableEq

/-- Modelled from the spec: `django.utils.text.slugify` is not part of this
repository.  Per the spec it derives a slug "deterministically from the
human-readable name/title (lower-cased, spaces and punctuation replaced with
a single separator)".  `slugGroups` splits the characters into maximal
alphanumeric runs (lower-cased); non-alphanumeric characters act as
separators. -/
def slugGroups : List Char → List (List Char)
  | [] => [[]]
  | c :: cs =>
    match slugGroups cs with
    | [] => [[]]
    | g :: gs => if c.isAlphanum then (c.toLower :: g) :: gs else [] :: g :: gs

/-- Modelled from the spec: the standard slug-normalization rule (see
`slugGroups`): lower-cased alphanumeric runs joined by single hyphens. -/
def slugify (s : String) : String :=
  String.intercalate "-"
    (((slugGroups s.toList).filter (fun g => !g.isEmpty)).map String.mk)

/-- Python truthiness used by `if not self.slug:` — `None` and the empty
string are falsy. -/
def slugFalsy : Option String → Bool
  | none => true
  | some s => s == ""

/-- The values present in a list of nullable columns. -/
def someVals (l : List (Option Nat)) : List Nat := l.filterMap id

/-- Maximum of a list of order values (`0` when the list is empty). -/
def maxOrd (l : List Nat) : Nat := l.foldr max 0

/-! ## Category (`post/models.py`, class `Category`)

Fields: `user` (scope foreign key), `name`, `slug` (nullable),
`ordering` (nullable `OrderField(unique_to='user')`). -/

structure Category where
  pk : Option Nat
  user : Nat
  name : String
  slug : Option String
  ordering : Option Nat
  deriving Repr, DecidableEq

/-- `OrderField.pre_save` for `Category.ordering` (`core/fields.py`).
The source builds the per-scope query `{self.unique_to: ...}` but discards
the result of `qs.filter(**query)` (querysets are immutable), so `latest`
runs over **all** records of the table: the value assigned is the global
maximum order value plus one, or `1` when the table is empty
(`ObjectDoesNotExist`).  `latest('ordering')` is modelled on stores all of
whose records carry an order value, which the save path establishes. -/
def categoryNextOrdering (store : List Category) : Nat :=
  if store.isEmpty then 1
  else maxOrd (someVals (store.map (·.ordering))) + 1

/-- `OrderField.pre_save`: assign the automatic order value only when the
instance's `ordering` is `None`. -/
def categoryPreSave (store : List Category) (c : Category) : Category :=
  match c.ordering with
  | some _ => c
  | none => { c with ordering := some (categoryNextOrdering store) }

/-- The queryset `Category.objects.filter(user=self.user,
slug=self.slug).exclude(pk=self.pk)` of `Category.clean`. -/
def categorySlugDups (store : List Category) (c : Category) : List Category :=
  (store.filter
      (fun r => decide (r.user = c.user ∧ r.slug = c.slug))).filter
      (fun r => decide (r.pk ≠ c.pk))

/-- The queryset `Category.objects.filter(user=self.user,
ordering=self.ordering).exclude(pk=self.pk)` of `Category.clean`. -/
def categoryOrdDups (store : List Category) (c : Category) : List Category :=
  (store.filter
      (fun r => decide (r.user = c.user ∧ r.ordering = c.ordering))).filter
      (fun r => decide (r.pk ≠ c.pk))

/-- `Category.clean`: slug then ordering uniqueness, both scoped by `user`,
excluding the record's own `pk`. -/
def categoryClean (store : List Category) (c : Category) : Except Err Unit :=
  if (categorySlugDups store c).isEmpty then
    if (categoryOrdDups store c).isEmpty then Except.ok ()
    else Except.error Err.duplicateOrdering
  else Except.error Err.duplicateSlug

/-- Next auto-increment primary key for an INSERT. -/
def categoryFreshPk (store : List Category) : Nat :=
  maxOrd (someVals (store.map (·.pk))) + 1

/-- The write performed by `super().save()`: INSERT (fresh pk, append) for an
in-flight record, UPDATE (replace by pk) for a persisted one. -/
def categoryPersist (store : List Category) (c : Category) :
    List Category × Category :=
  match c.pk with
  | none =>
    let saved := { c with pk := some (categoryFreshPk store) }
    (store ++ [saved], saved)
  | some k =>
    (store.map (fun r => if r.pk = some k then c else r), c)

/-- The slug-derivation step `if not self.slug: self.slug = slugify(self.name)`
of `Category.save`. -/
def categoryDeriveSlug (c : Category) : Category :=
  if slugFalsy c.slug then { c with slug := some (slugify c.name) } else c

/-- `Category.save`: derive a missing slug from `name`, run `full_clean`
(which calls `clean`), then `super().save()` — during which
`OrderField.pre_save` fills in a missing order value — and persist. -/
def categorySave (store : List Category) (c : Category) :
    Except Err (List Category × Category) :=
  match categoryClean store (categoryDeriveSlug c) with
  | Except.error e => Except.error e
  | Except.ok () =>
    Except.ok (categoryPersist store (categoryPreSave store (categoryDeriveSlug c)))

/-! ## Author (`post/models.py`, class `Author`) -/

structure Author where
  pk : Option Nat
  user : Nat
  name : String
  slug : Option String
  description : Option String
  deriving Repr, DecidableEq

/-- The queryset `Author.objects.filter(user=self.user,
slug=self.slug).exclude(pk=self.pk)` of `Author.clean`. -/
def authorSlugDups (store : List Author) (a : Author) : List Author :=
  (store.filter
      (fun r => decide (r.user = a.user ∧ r.slug = a.slug))).filter
      (fun r => decide (r.pk ≠ a.pk))

/-- `Author.clean`: slug uniqueness scoped by `user`, excluding own `pk`. -/
def authorClean (store : List Author) (a : Author) : Except Err Unit :=
  if (authorSlugDups store a).isEmpty then Except.ok ()
  else Except.error Err.duplicateSlug

def authorFreshPk (store : List Author) : Nat :=
  maxOrd (someVals (store.map (·.pk))) + 1

def authorPersist (store : List Author) (a : Author) : List Author × Author :=
  match a.pk with
  | none =>
    let saved := { a with pk := some (authorFreshPk store) }
    (store ++ [saved], saved)
  | some k =>
    (store.map (fun r => if r.pk = some k then a else r), a)

/-- The slug-derivation step of `Author.save`. -/
def authorDeriveSlug (a : Author) : Author :=
  if slugFalsy a.slug then { a with slug := some (slugify a.name) } else a

/-- `Author.save`: derive a missing slug from `name`, `full_clean`, persist. -/
def authorSave (store : List Author) (a : Author) :
    Except Err (List Author × Author) :=
  match authorClean store (authorDeriveSlug a) with
  | Except.error e => Except.error e
  | Except.ok () => Except.ok (authorPersist store (authorDeriveSlug a))

/-! ## Post (`post/models.py`, class `Post`)

The image and the auto-managed timestamps are framework-managed and carry no
ordering/uniqueness behaviour; the remaining fields are embedded. -/

structure Post where
  pk : Option Nat
  user : Nat
  title : String
  slug : Option String
  excerpt : Option String
  category : Option Nat
  author : Option Nat
  timeRead : Option Nat
  deriving Repr, DecidableEq

/-- The queryset `Post.objects.filter(user=self.user,
slug=self.slug).exclude(pk=self.pk)` of `Post.clean`. -/
def postSlugDups (store : List Post) (p : Post) : List Post :=
  (store.filter
      (fun r => decide (r.user = p.user ∧ r.slug = p.slug))).filter
      (fun r => decide (r.pk ≠ p.pk))

/-- `Post.clean`: slug uniqueness scoped by `user`, excluding own `pk`. -/
def postClean (store : List Post) (p : Post) : Except Err Unit :=
  if (postSlugDups store p).isEmpty then Except.ok ()
  else Except.error Err.duplicateSlug

def postFreshPk (store : List Post) : Nat :=
  maxOrd (someVals (store.map (·.pk))) + 1

def postPersist (store : List Post) (p : Post) : List Post × Post :=
  match p.pk with
  | none =>
    let saved := { p with pk := some (postFreshPk store) }
    (store ++ [saved], saved)
  | some k =>
    (store.map (fun r => if r.pk = some k then p else r), p)

/-- The slug-derivation step of `Post.save` (from `title`). -/
def postDeriveSlug (p : Post) : Post :=
  if slugFalsy p.slug then { p with slug := some (slugify p.title) } else p

/-- `Post.save`: derive a missing slug from `title`, `full_clean`, persist. -/
def postSave (store : List Post) (p : Post) :
    Except Err (List Post × Post) :=
  match postClean store (postDeriveSlug p) with
  | Except.error e => Except.error e
  | Except.ok () => Except.ok (postPersist store (postDeriveSlug p))

/-! ## Section (`post/models.py`, class `Section`)

Fields: `user`, `post` (scope foreign key of the `OrderField`),
`ordering` (nullable `OrderField(unique_to='post')`), `sub_title`, `content`. -/

structure Section where
  pk : Option Nat
  user : Nat
  post : Nat
  ordering : Option Nat
  subTitle : Option String
  content : String
  deriving Repr, DecidableEq

/-- `OrderField.pre_save` for `Section.ordering`: as for `Category`, the
per-scope filter result is discarded, so the next value is the global
maximum order value over all sections plus one (or `1` on an empty table). -/
def sectionNextOrdering (store : List Section) : Nat :=
  if store.isEmpty then 1
  else maxOrd (someVals (store.map (·.ordering))) + 1

def sectionPreSave (store : List Section) (s : Section) : Section :=
  match s.ordering with
  | some _ => s
  | none => { s with ordering := some (sectionNextOrdering store) }

/-- The queryset `Section.objects.filter(user=self.user,
ordering=self.ordering).exclude(pk=self.pk)` of `Section.clean` — note the
filter is on `user`, not on `post`, although the docstring and the error
message speak of "this particular post". -/
def sectionOrdDups (store : List Section) (s : Section) : List Section :=
  (store.filter
      (fun r => decide (r.user = s.user ∧ r.ordering = s.ordering))).filter
      (fun r => decide (r.pk ≠ s.pk))

/-- `Section.clean`: ordering uniqueness scoped by `user`, excluding the
record's own `pk`. -/
def sectionClean (store : List Section) (s : Section) : Except Err Unit :=
  if (sectionOrdDups store s).isEmpty then Except.ok ()
  else Except.error Err.duplicateOrdering

def sectionFreshPk (store : List Section) : Nat :=
  maxOrd (someVals (store.map (·.pk))) + 1

def sectionPersist (store : List Section) (s : Section) :
    List Section × Section :=
  match s.pk with
  | none =>
    let saved := { s with pk := some (sectionFreshPk store) }
    (store ++ [saved], saved)
  | some k =>
    (store.map (fun r => if r.pk = some k then s else r), s)

/-- `Section.save`: `full_clean`, then `super().save()` — during which
`OrderField.pre_save` fills in a missing order value — and persist.
(`Section` has no slug.) -/
def sectionSave (store : List Section) (s : Section) :
    Except Err (List Section × Section) :=
  match sectionClean store s with
  | Except.error e => Except.error e
  | Except.ok () => Except.ok (sectionPersist store (sectionPreSave store s))

/-! ## Storage schema (`post/migrations/0001_initial.py`)

The initial migration creates the tables; the later migration
`0009_alter_post_author.py` only alters the `author` foreign key of `post`
and adds no constraint.  Each `CreateModel` below is transcribed with its
columns (name, nullability) and the table-level uniqueness constraints it
declares — the migration declares none: no `unique_together`, no
`constraints` option appears in the source. -/

structure SchemaColumn where
  name : String
  nullable : Bool
  deriving Repr, DecidableEq

structure TableDef where
  name : String
  columns : List SchemaColumn
  /-- Composite uniqueness constraints (each a list of column names). -/
  uniqueConstraints : List (List String)
  deriving Repr, DecidableEq

/-- `CreateModel(name='Category', ...)` of `0001_initial.py`. -/
def categoryTable : TableDef :=
  { name := "category"
    columns := [⟨"id", false⟩, ⟨"name", false⟩, ⟨"slug", true⟩,
                ⟨"ordering", true⟩, ⟨"user", false⟩]
    uniqueConstraints := [] }

/-- `CreateModel(name='Section', ...)` of `0001_initial.py`. -/
def sectionTable : TableDef :=
  { name := "section"
    columns := [⟨"id", false⟩, ⟨"ordering", true⟩, ⟨"sub_title", true⟩,
                ⟨"content", false⟩, ⟨"post", false⟩, ⟨"user", false⟩]
    uniqueConstraints := [] }

/-- `CreateModel(name='Author', ...)` of `0001_initial.py`. -/
def authorTable : TableDef :=
  { name := "author"
    columns := [⟨"id", false⟩, ⟨"name", false⟩, ⟨"slug", true⟩,
                ⟨"description", true⟩, ⟨"user", false⟩]
    uniqueConstraints := [] }

/-- `CreateModel(name='Post', ...)` of `0001_initial.py`. -/
def postTable : TableDef :=
  { name := "post"
    columns := [⟨"id", false⟩, ⟨"title", false⟩, ⟨"slug", true⟩,
                ⟨"excerpt", true⟩, ⟨"image", true⟩, ⟨"time_read", true⟩,
                ⟨"created_at", false⟩, ⟨"updated_at", false⟩,
                ⟨"author", true⟩, ⟨"category", true⟩, ⟨"user", false⟩]
    uniqueConstraints := [] }

/-! ## `OrderField` configuration check (`core/fields.py`) -/

/-- The `unique_to` argument of an `OrderField` instance. -/
structure OrderFieldConfig where
  uniqueTo : Option String
  deriving Repr, DecidableEq

/-- The names of the fields of the model the `OrderField` is attached to
(`self.model._meta.get_fields()`). -/
structure ModelMeta where
  fields : List String
  deriving Repr, DecidableEq

/-- `OrderField._check_field_attribute`: the list of `checks.Error` messages
this field contributes to Django's system check. -/
def checkFieldAttribute (cfg : OrderFieldConfig) (meta : ModelMeta) :
    List String :=
  match cfg.uniqueTo with
  | none => ["OrderField must define a \"unique_to\" attribute."]
  | some f =>
    if f ∈ meta.fields then []
    else ["Field name passed with \"unique_to\" attribute does not match " ++
          "an existing model field."]

/-- Modelled from the spec: the Django system-check framework (not part of
this repository) runs every field's `check()` before the server or a
management command starts, and any `checks.Error` aborts startup.  The
system starts iff the field contributes no error. -/
def systemStarts (cfg : OrderFieldConfig) (meta : ModelMeta) : Bool :=
  checkFieldAttribute cfg meta = []

/-- An instance's attribute values as seen by `getattr` (only the scope
attribute's value matters here, modelled as a lookup table). -/
abbrev instAttrs := List (String × Nat)

/-- The runtime scope lookup `getattr(model_instance, self.unique_to)`
performed inside `pre_save`: with `unique_to = None` Python's `getattr`
raises `TypeError`; with a name the instance does not have it raises
`AttributeError`. -/
def orderFieldGetScope (cfg : OrderFieldConfig) (inst : instAttrs) :
    Except String Nat :=
  match cfg.uniqueTo with
  | none => Except.error "TypeError"
  | some f =>
    match inst.lookup f with
    | none => Except.error "AttributeError"
    | some v => Except.ok v

/-! ## Spec-side definitions used for comparison -/

/-- Modelled from the spec: the Scoped Ordering Assigner of §4.1 — "find all
existing persisted records of the same entity type whose scope attribute
equals this record's scope attribute value; if none exist, assign
order = 1; otherwise assign order = (maximum existing order value among
them) + 1". For `Category` the scope attribute is `user`. -/
def categoryNextOrderingSpec (store : List Category) (user : Nat) : Nat :=
  let inScope := store.filter (fun r => decide (r.user = user))
  if inScope.isEmpty then 1
  else maxOrd (someVals (inScope.map (·.ordering))) + 1

/-- Modelled from the spec: the §2 control flow "Uniqueness Validator checks
slug → Ordering Assigner fills in a missing order value → Uniqueness
Validator checks the (possibly just-assigned) order value → persist",
instantiated with the repository's own assigner (`categoryPreSave`) so that
only the sequencing of assigner and validator differs from
`categorySave`. -/
def categorySaveCheckAfterAssign (store : List Category) (c : Category) :
    Except Err (List Category × Category) :=
  if (categorySlugDups store (categoryDeriveSlug c)).isEmpty then
    if (categoryOrdDups store
        (categoryPreSave store (categoryDeriveSlug c))).isEmpty then
      Except.ok (categoryPersist store (categoryPreSave store (categoryDeriveSlug c)))
    else Except.error Err.duplicateOrdering
  else Except.error Err.duplicateSlug

/-- Modelled from the spec: the per-scope (per-`post`) next order value for
`Section`, per §4.1 of the spec. -/
def sectionNextOrderingSpec (store : List Section) (post : Nat) : Nat :=
  let inScope := store.filter (fun r => decide (r.post = post))
  if inScope.isEmpty then 1
  else maxOrd (someVals (inScope.map (·.ordering))) + 1

/-! ## Operation traces over sections (used for the ordering-monotonicity
claim)

A trace interleaves creates-without-explicit-order and deletions, exactly
the operations the spec's §8 property quantifies over. -/

inductive Op where
  /-- `Section.objects.create(user=..., post=..., content=...)` with
  `ordering` omitted. -/
  | createAuto (user post : Nat) (content : String)
  /-- `Section.objects.get(pk=k).delete()`. -/
  | delete (k : Nat)
  deriving Repr, DecidableEq

/-- Run one operation.  A successful auto-create logs `(post, assigned
order value, new pk)`; a failed create changes nothing; delete removes the
record with the given pk. -/
def applyOp (store : List Section) :
    Op → List Section × List (Nat × Nat × Nat)
  | Op.createAuto u p content =>
    match sectionSave store ⟨none, u, p, none, none, content⟩ with
    | Except.ok (s', c') =>
      (s', match c'.ordering, c'.pk with
           | some v, some k => [(p, v, k)]
           | _, _ => [])
    | Except.error _ => (store, [])
  | Op.delete k => (store.filter (fun r => decide (r.pk ≠ some k)), [])

/-- Run a trace, accumulating the log of successful auto-creates. -/
def runOps (store : List Section) : List Op → List Section × List (Nat × Nat × Nat)
  | [] => (store, [])
  | op :: ops =>
    let (s', log) := applyOp store op
    let (s'', log') := runOps s' ops
    (s'', log ++ log')

/-- The order values assigned, in sequence, to the successful auto-creates
under post `p` during a trace. -/
def assignedValues (store : List Section) (ops : List Op) (p : Nat) : List Nat :=
  ((runOps store ops).2.filter (fun e => decide (e.1 = p))).map (fun e => e.2.1)

/-- The pks handed out, in sequence, to the successful auto-creates under
post `p` recorded in a log. -/
def createdPks (log : List (Nat × Nat × Nat)) (p : Nat) : List Nat :=
  (log.filter (fun e => decide (e.1 = p))).map (fun e => e.2.2)

/-- A trace, started with `created` holding the pks of earlier creates of
the watched sequence under post `p`, never deletes a record created by the
watched sequence itself. -/
def selfPreserving (store : List Section) (created : List Nat) (p : Nat) :
    List Op → Bool
  | [] => true
  | op :: ops =>
    (match op with
     | Op.delete k => decide (k ∉ created)
     | _ => true) &&
    selfPreserving (applyOp store op).1
      (created ++ createdPks (applyOp store op).2 p) p ops

/-! ## General lemmas -/

theorem le_maxOrd {l : List Nat} {x : Nat} (h : x ∈ l) : x ≤ maxOrd l := by
  induction l with
  | nil => cases h
  | cons a t ih =>
    rcases List.mem_cons.mp h with rfl | ht
    · exact le_max_left _ _
    · exact le_trans (ih ht) (le_max_right _ _)

theorem categoryNextOrdering_pos (store : List Category) :
    1 ≤ categoryNextOrdering store := by
  unfold categoryNextOrdering
  split <;> omega

theorem categoryNextOrdering_gt {store : List Category} {r : Category}
    {w : Nat} (hr : r ∈ store) (hw : r.ordering = some w) :
    w < categoryNextOrdering store := by
  unfold categoryNextOrdering
  split
  · next he => rw [List.isEmpty_iff] at he; subst he; cases hr
  · have hmem : w ∈ someVals (store.map (·.ordering)) := by
      simp only [someVals, List.filterMap_map, List.mem_filterMap]
      exact ⟨r, hr, by simp [hw]⟩
    exact Nat.lt_succ_of_le (le_maxOrd hmem)

theorem sectionNextOrdering_pos (store : List Section) :
    1 ≤ sectionNextOrdering store := by
  unfold sectionNextOrdering
  split <;> omega

theorem sectionNextOrdering_gt {store : List Section} {r : Section}
    {w : Nat} (hr : r ∈ store) (hw : r.ordering = some w) :
    w < sectionNextOrdering store := by
  unfold sectionNextOrdering
  split
  · next he => rw [List.isEmpty_iff] at he; subst he; cases hr
  · have hmem : w ∈ someVals (store.map (·.ordering)) := by
      simp only [someVals, List.filterMap_map, List.mem_filterMap]
      exact ⟨r, hr, by simp [hw]⟩
    exact Nat.lt_succ_of_le (le_maxOrd hmem)

/-! ## Shape lemmas about the save pipelines -/

theorem categoryDeriveSlug_pk (c : Category) :
    (categoryDeriveSlug c).pk = c.pk := by
  unfold categoryDeriveSlug; split <;> rfl

theorem categoryDeriveSlug_user (c : Category) :
    (categoryDeriveSlug c).user = c.user := by
  unfold categoryDeriveSlug; split <;> rfl

theorem categoryDeriveSlug_ordering (c : Category) :
    (categoryDeriveSlug c).ordering = c.ordering := by
  unfold categoryDeriveSlug; split <;> rfl

theorem authorDeriveSlug_pk (a : Author) : (authorDeriveSlug a).pk = a.pk := by
  unfold authorDeriveSlug; split <;> rfl

theorem authorDeriveSlug_user (a : Author) :
    (authorDeriveSlug a).user = a.user := by
  unfold authorDeriveSlug; split <;> rfl

theorem postDeriveSlug_pk (p : Post) : (postDeriveSlug p).pk = p.pk := by
  unfold postDeriveSlug; split <;> rfl

theorem postDeriveSlug_user (p : Post) : (postDeriveSlug p).user = p.user := by
  unfold postDeriveSlug; split <;> rfl

theorem categoryPreSave_of_some {store : List Category} {c : Category}
    {v : Nat} (h : c.ordering = some v) : categoryPreSave store c = c := by
  unfold categoryPreSave; rw [h]

theorem categoryPreSave_of_none {store : List Category} {c : Category}
    (h : c.ordering = none) :
    categoryPreSave store c =
      { c with ordering := some (categoryNextOrdering store) } := by
  unfold categoryPreSave; rw [h]

theorem categoryPersist_snd_ordering (store : List Category) (c : Category) :
    ((categoryPersist store c).2).ordering = c.ordering := by
  unfold categoryPersist; cases c.pk <;> rfl

theorem categoryPersist_snd_slug (store : List Category) (c : Category) :
    ((categoryPersist store c).2).slug = c.slug := by
  unfold categoryPersist; cases c.pk <;> rfl

theorem categoryPersist_fst_mem {store : List Category} {c r : Category}
    (h : r ∈ (categoryPersist store c).1) :
    r ∈ store ∨ r = (categoryPersist store c).2 := by
  unfold categoryPersist at h ⊢
  cases hpk : c.pk with
  | none =>
    simp only [hpk] at h ⊢
    rcases List.mem_append.mp h with h' | h'
    · exact Or.inl h'
    · exact Or.inr (List.mem_singleton.mp h')
  | some k =>
    simp only [hpk] at h ⊢
    rcases List.mem_map.mp h with ⟨a, ha, rfl⟩
    by_cases hk : a.pk = some k
    · simp [hk]
    · simp [hk]; exact Or.inl ha

theorem sectionPreSave_of_some {store : List Section} {s : Section}
    {v : Nat} (h : s.ordering = some v) : sectionPreSave store s = s := by
  unfold sectionPreSave; rw [h]

theorem sectionPreSave_of_none {store : List Section} {s : Section}
    (h : s.ordering = none) :
    sectionPreSave store s =
      { s with ordering := some (sectionNextOrdering store) } := by
  unfold sectionPreSave; rw [h]

theorem sectionPersist_snd_ordering (store : List Section) (s : Section) :
    ((sectionPersist store s).2).ordering = s.ordering := by
  unfold sectionPersist; cases s.pk <;> rfl

theorem sectionPersist_fst_mem {store : List Section} {s r : Section}
    (h : r ∈ (sectionPersist store s).1) :
    r ∈ store ∨ r = (sectionPersist store s).2 := by
  unfold sectionPersist at h ⊢
  cases hpk : s.pk with
  | none =>
    simp only [hpk] at h ⊢
    rcases List.mem_append.mp h with h' | h'
    · exact Or.inl h'
    · exact Or.inr (List.mem_singleton.mp h')
  | some k =>
    simp only [hpk] at h ⊢
    rcases List.mem_map.mp h with ⟨a, ha, rfl⟩
    by_cases hk : a.pk = some k
    · simp [hk]
    · simp [hk]; exact Or.inl ha

/-- A successful create (`pk = none`, `ordering` omitted) appends exactly the
record with the freshly assigned pk and the automatically assigned order
value. -/
theorem sectionSave_create_ok {store s' : List Section} {s c' : Section}
    (hpk : s.pk = none) (hord : s.ordering = none)
    (h : sectionSave store s = Except.ok (s', c')) :
    c' = { s with pk := some (sectionFreshPk store),
                  ordering := some (sectionNextOrdering store) } ∧
    s' = store ++ [c'] := by
  unfold sectionSave at h
  cases hcl : sectionClean store s with
  | error e => rw [hcl] at h; cases h
  | ok u =>
    rw [hcl] at h
    rw [sectionPreSave_of_none hord] at h
    unfold sectionPersist at h
    simp only [hpk] at h
    cases h
    exact ⟨rfl, rfl⟩

/-- A create whose clean check passes: characterization of success for an
omitted-order section create on a store without null order values. -/
theorem sectionSave_create_of_allSome {store : List Section} {s : Section}
    (hpk : s.pk = none) (hord : s.ordering = none)
    (hs : ∀ r ∈ store, r.ordering ≠ none) :
    sectionSave store s =
      Except.ok (store ++ [{ s with pk := some (sectionFreshPk store),
                                    ordering := some (sectionNextOrdering store) }],
                 { s with pk := some (sectionFreshPk store),
                          ordering := some (sectionNextOrdering store) }) := by
  have hdups : sectionOrdDups store s = [] := by
    unfold sectionOrdDups
    rw [List.filter_eq_nil_iff]
    intro r hr
    rcases List.mem_filter.mp hr with ⟨hmem, hcond⟩
    rw [decide_eq_true_eq] at hcond
    exact absurd (hcond.2.trans hord) (hs r hmem)
  unfold sectionSave sectionClean
  rw [hdups]
  rw [sectionPreSave_of_none hord]
  unfold sectionPersist
  simp [hpk]

theorem categoryPreSave_slug (store : List Category) (c : Category) :
    (categoryPreSave store c).slug = c.slug := by
  unfold categoryPreSave; cases c.ordering <;> rfl

theorem categoryPreSave_ordering_ne_none (store : List Category) (c : Category) :
    (categoryPreSave store c).ordering ≠ none := by
  unfold categoryPreSave
  cases h : c.ordering with
  | none => simp
  | some v => simp [h]

theorem sectionPreSave_ordering_ne_none (store : List Section) (s : Section) :
    (sectionPreSave store s).ordering ≠ none := by
  unfold sectionPreSave
  cases h : s.ordering with
  | none => simp
  | some v => simp [h]

theorem mem_categorySlugDups {store : List Category} {c r : Category}
    (hr : r ∈ store) (hpk : r.pk ≠ c.pk) (hu : r.user = c.user)
    (hs : r.slug = c.slug) : r ∈ categorySlugDups store c := by
  unfold categorySlugDups
  exact List.mem_filter.mpr
    ⟨List.mem_filter.mpr ⟨hr, by simp [hu, hs]⟩, by simp [hpk]⟩

theorem mem_categoryOrdDups {store : List Category} {c r : Category}
    (hr : r ∈ store) (hpk : r.pk ≠ c.pk) (hu : r.user = c.user)
    (ho : r.ordering = c.ordering) : r ∈ categoryOrdDups store c := by
  unfold categoryOrdDups
  exact List.mem_filter.mpr
    ⟨List.mem_filter.mpr ⟨hr, by simp [hu, ho]⟩, by simp [hpk]⟩

theorem categoryClean_err_of_slug_dup {store : List Category} {c r : Category}
    (h : r ∈ categorySlugDups store c) :
    categoryClean store c = Except.error Err.duplicateSlug := by
  have hne : (categorySlugDups store c).isEmpty = false := by
    cases he : (categorySlugDups store c).isEmpty
    · rfl
    · rw [List.isEmpty_iff] at he; rw [he] at h; cases h
  simp [categoryClean, hne]

theorem authorClean_err_of_slug_dup {store : List Author} {a r : Author}
    (hr : r ∈ store) (hpk : r.pk ≠ a.pk) (hu : r.user = a.user)
    (hs : r.slug = a.slug) :
    authorClean store a = Except.error Err.duplicateSlug := by
  have hmem : r ∈ authorSlugDups store a := by
    unfold authorSlugDups
    exact List.mem_filter.mpr
      ⟨List.mem_filter.mpr ⟨hr, by simp [hu, hs]⟩, by simp [hpk]⟩
  have hne : (authorSlugDups store a).isEmpty = false := by
    cases he : (authorSlugDups store a).isEmpty
    · rfl
    · rw [List.isEmpty_iff] at he; rw [he] at hmem; cases hmem
  simp [authorClean, hne]

theorem postClean_err_of_slug_dup {store : List Post} {p r : Post}
    (hr : r ∈ store) (hpk : r.pk ≠ p.pk) (hu : r.user = p.user)
    (hs : r.slug = p.slug) :
    postClean store p = Except.error Err.duplicateSlug := by
  have hmem : r ∈ postSlugDups store p := by
    unfold postSlugDups
    exact List.mem_filter.mpr
      ⟨List.mem_filter.mpr ⟨hr, by simp [hu, hs]⟩, by simp [hpk]⟩
  have hne : (postSlugDups store p).isEmpty = false := by
    cases he : (postSlugDups store p).isEmpty
    · rfl
    · rw [List.isEmpty_iff] at he; rw [he] at hmem; cases hmem
  simp [postClean, hne]

/-- When the record's order value is absent and every stored record carries
one, the ordering queryset of `Category.clean` is empty. -/
theorem categoryOrdDups_of_none_allSome {store : List Category} {c : Category}
    (hord : c.ordering = none) (hs : ∀ r ∈ store, r.ordering ≠ none) :
    categoryOrdDups store c = [] := by
  unfold categoryOrdDups
  rw [List.filter_eq_nil_iff]
  intro r hr
  rcases List.mem_filter.mp hr with ⟨hmem, hcond⟩
  rw [decide_eq_true_eq] at hcond
  simp
  exact absurd (hcond.2.trans hord) (hs r hmem)

/-! ## Claims -/

/-- C1: the claim says the assigner gives the first record of a *scope*
order `1` even when records exist in other scopes.  The code does not: with
one persisted category of user 1 carrying order value 1, an omitted-order
create for user 2 is assigned `2` (global maximum plus one, because
`pre_save` discards the result of `qs.filter(**query)`), where the spec's
per-scope assigner yields `1`. -/
theorem orderfield_pre_save_ignores_scope :
    categorySave [⟨some 1, 1, "Cat A", some "cat-a", some 1⟩]
        ⟨none, 2, "Cat B", some "cat-b", none⟩
      = Except.ok
          ([⟨some 1, 1, "Cat A", some "cat-a", some 1⟩,
            ⟨some 2, 2, "Cat B", some "cat-b", some 2⟩],
           ⟨some 2, 2, "Cat B", some "cat-b", some 2⟩) ∧
    categoryNextOrderingSpec [⟨some 1, 1, "Cat A", some "cat-a", some 1⟩] 2
      = 1 :=
  ⟨rfl, rfl⟩

/-- C3: the claim says two Sections with the same order value under two
different posts of the same owner may coexist.  The code rejects the second
one: `Section.clean` filters by `user`, not by `post` — here the store holds
no section of post 2 at all, yet the create under post 2 fails with the
duplicate-ordering error because a section of the same user exists under
post 1 with the same order value. -/
theorem section_order_uniqueness_scoped_by_user :
    sectionSave [⟨some 1, 1, 1, some 5, none, "first"⟩]
        ⟨none, 1, 2, some 5, none, "second"⟩
      = Except.error Err.duplicateOrdering ∧
    ([(⟨some 1, 1, 1, some 5, none, "first"⟩ : Section)].filter
        (fun r => decide (r.post = 2))) = [] :=
  ⟨rfl, rfl⟩

/-- C2 (counterexample): the claim's control flow — assigner fills in the
missing order value, then the validator checks the just-assigned value —
differs from the code on a store holding a record with a null order value
(the column is nullable): the code's validator runs *before* the assigner,
checks `ordering = None`, matches the null record and rejects the create,
while the claimed flow assigns `1` first, finds no duplicate of `1`, and
persists. -/
theorem category_save_differs_from_check_after_assign :
    categorySave [⟨some 1, 1, "Cat A", some "cat-a", none⟩]
        ⟨none, 1, "Cat B", some "cat-b", none⟩
      = Except.error Err.duplicateOrdering ∧
    categorySaveCheckAfterAssign [⟨some 1, 1, "Cat A", some "cat-a", none⟩]
        ⟨none, 1, "Cat B", some "cat-b", none⟩
      = Except.ok
          ([⟨some 1, 1, "Cat A", some "cat-a", none⟩,
            ⟨some 2, 1, "Cat B", some "cat-b", some 1⟩],
           ⟨some 2, 1, "Cat B", some "cat-b", some 1⟩) :=
  ⟨rfl, rfl⟩

/-- C4 (counterexample): the initial migration declares no composite
uniqueness constraint — neither over (scope foreign key, order) nor over
(scope foreign key, slug) — for any of the entity tables. -/
theorem no_storage_level_unique_constraints :
    ¬ (["user", "ordering"] ∈ categoryTable.uniqueConstraints ∨
       ["user", "slug"] ∈ categoryTable.uniqueConstraints ∨
       ["post", "ordering"] ∈ sectionTable.uniqueConstraints ∨
       ["user", "slug"] ∈ postTable.uniqueConstraints ∨
       ["user", "slug"] ∈ authorTable.uniqueConstraints) := by
  decide

/-- C5 (counterexample): with deletions allowed to remove the sequence's own
records, assigned order values are not strictly increasing: create a section
(assigned 1), delete it, create another — it is assigned 1 again. -/
theorem assigned_values_not_increasing_after_self_delete :
    assignedValues []
        [Op.createAuto 1 1 "first", Op.delete 1, Op.createAuto 1 1 "second"] 1
      = [1, 1] ∧
    ¬ List.Chain' (· < ·) [1, 1] :=
  ⟨rfl, fun h => absurd (List.chain'_cons.mp h).1 (by decide)⟩

/-- C10 (counterexample): a Section created with the explicit order value 0
passes validation and persists, so a live record's order value need not be
positive — nothing on the save path requires `ordering ≥ 1` for
caller-supplied values. -/
theorem section_with_order_zero_persists :
    sectionSave [] ⟨none, 1, 1, some 0, none, "body"⟩
      = Except.ok ([⟨some 1, 1, 1, some 0, none, "body"⟩],
                   ⟨some 1, 1, 1, some 0, none, "body"⟩) ∧
    ¬ 1 ≤ (0 : Nat) :=
  ⟨rfl, by decide⟩

/-- The ordering queryset at the just-assigned value is empty: the assigned
value exceeds every stored order value. -/
theorem categoryOrdDups_at_assigned {store : List Category} {c : Category} :
    categoryOrdDups store
      { c with ordering := some (categoryNextOrdering store) } = [] := by
  unfold categoryOrdDups
  rw [List.filter_eq_nil_iff]
  intro r hr
  rcases List.mem_filter.mp hr with ⟨hmem, hcond⟩
  rw [decide_eq_true_eq] at hcond
  have hro : r.ordering = some (categoryNextOrdering store) := hcond.2
  exact fun _ => absurd (categoryNextOrdering_gt hmem hro) (lt_irrefl _)

/-- C2 (amended): the uniqueness validation runs *before* the assigner, on
the caller-supplied order value (the null marker when the caller omits it);
nevertheless, on every store in which all records carry an order value the
outcome coincides with the claimed assign-then-check flow, and an assigned
order value never duplicates the order value of any stored record — it
exceeds all of them, so the unchecked assigned value cannot collide. -/
theorem order_check_precedes_assign_but_coincides
    (store : List Category) (c : Category)
    (hall : ∀ r ∈ store, r.ordering ≠ none) :
    categorySave store c = categorySaveCheckAfterAssign store c ∧
    (∀ (s' : List Category) (c' : Category), c.ordering = none →
       categorySave store c = Except.ok (s', c') →
       ∀ r ∈ store, r.ordering ≠ c'.ordering) := by
  constructor
  · unfold categorySave categorySaveCheckAfterAssign categoryClean
    by_cases hA : (categorySlugDups store (categoryDeriveSlug c)).isEmpty = true
    · simp only [if_pos hA]
      cases hord : (categoryDeriveSlug c).ordering with
      | some v =>
        rw [categoryPreSave_of_some hord]
        by_cases hB : (categoryOrdDups store (categoryDeriveSlug c)).isEmpty = true
        · simp only [if_pos hB]
        · simp only [if_neg hB]
      | none =>
        rw [categoryPreSave_of_none hord]
        rw [categoryOrdDups_of_none_allSome hord hall,
            categoryOrdDups_at_assigned]
        rfl
    · simp only [if_neg hA]
  · intro s' c' hnone h
    unfold categorySave at h
    cases hcl : categoryClean store (categoryDeriveSlug c) with
    | error e => rw [hcl] at h; cases h
    | ok u =>
      rw [hcl] at h
      injection h with h
      obtain ⟨rfl, rfl⟩ : s' = _ ∧ c' = _ :=
        ⟨(congrArg Prod.fst h).symm, (congrArg Prod.snd h).symm⟩
      intro r hr
      have hd : (categoryDeriveSlug c).ordering = none := by
        rw [categoryDeriveSlug_ordering]; exact hnone
      rw [categoryPersist_snd_ordering, categoryPreSave_of_none hd]
      show r.ordering ≠ some (categoryNextOrdering store)
      rcases Option.ne_none_iff_exists'.mp (hall r hr) with ⟨w, hw⟩
      rw [hw]
      intro hEq
      injection hEq with hEq
      exact absurd (hEq ▸ categoryNextOrdering_gt hr hw) (lt_irrefl _)

/-- Witness: on a concrete one-record store the code pipeline coincides with
the assign-then-check pipeline, and the value assigned to an omitted-order
create differs from the stored record's value. -/
theorem order_check_precedes_assign_but_coincides_witness :
    categorySave [⟨some 1, 1, "Cat A", some "cat-a", some 1⟩]
        ⟨none, 1, "Cat B", some "cat-b", none⟩
      = categorySaveCheckAfterAssign
          [⟨some 1, 1, "Cat A", some "cat-a", some 1⟩]
          ⟨none, 1, "Cat B", some "cat-b", none⟩ ∧
    (⟨some 1, 1, "Cat A", some "cat-a", some 1⟩ : Category).ordering
      ≠ (⟨some 2, 1, "Cat B", some "cat-b", some 2⟩ : Category).ordering :=
  ⟨(order_check_precedes_assign_but_coincides
      [⟨some 1, 1, "Cat A", some "cat-a", some 1⟩]
      ⟨none, 1, "Cat B", some "cat-b", none⟩
      (by intro r hr; rw [List.mem_singleton.mp hr]; decide)).1,
   (order_check_precedes_assign_but_coincides
      [⟨some 1, 1, "Cat A", some "cat-a", some 1⟩]
      ⟨none, 1, "Cat B", some "cat-b", none⟩
      (by intro r hr; rw [List.mem_singleton.mp hr]; decide)).2
      [⟨some 1, 1, "Cat A", some "cat-a", some 1⟩,
       ⟨some 2, 1, "Cat B", some "cat-b", some 2⟩]
      ⟨some 2, 1, "Cat B", some "cat-b", some 2⟩ rfl rfl
      ⟨some 1, 1, "Cat A", some "cat-a", some 1⟩
      (List.mem_singleton.mpr rfl)⟩

/-- `applyOp` on a delete. -/
theorem applyOp_delete (store : List Section) (k : Nat) :
    applyOp store (Op.delete k)
      = (store.filter (fun r => decide (r.pk ≠ some k)), []) := rfl

/-- Unfolding of `selfPreserving` on a cons. -/
theorem selfPreserving_cons (store : List Section) (created : List Nat)
    (p : Nat) (op : Op) (ops : List Op) :
    selfPreserving store created p (op :: ops)
      = ((match op with
          | Op.delete k => decide (k ∉ created)
          | _ => true) &&
         selfPreserving (applyOp store op).1
           (created ++ createdPks (applyOp store op).2 p) p ops) := rfl

/-- Unfolding of `runOps` on a cons. -/
theorem runOps_cons (store : List Section) (op : Op) (ops : List Op) :
    runOps store (op :: ops)
      = ((runOps (applyOp store op).1 ops).1,
         (applyOp store op).2 ++ (runOps (applyOp store op).1 ops).2) := by
  rcases happ : applyOp store op with ⟨s1, log1⟩
  rcases hrun : runOps s1 ops with ⟨s2, log2⟩
  simp [runOps, happ, hrun]

/-- Unfolding of `assignedValues` on a cons. -/
theorem assignedValues_cons (store : List Section) (op : Op) (ops : List Op)
    (p : Nat) :
    assignedValues store (op :: ops) p
      = ((applyOp store op).2.filter (fun e => decide (e.1 = p))).map
          (fun e => e.2.1)
        ++ assignedValues (applyOp store op).1 ops p := by
  unfold assignedValues
  rw [runOps_cons]
  simp [List.filter_append, List.map_append]

/-- A successful omitted-order create logs exactly one entry. -/
theorem applyOp_createAuto (store : List Section) (u q : Nat)
    (content : String) (hall : ∀ r ∈ store, r.ordering ≠ none) :
    applyOp store (Op.createAuto u q content)
      = (store ++ [{ pk := some (sectionFreshPk store), user := u, post := q,
                     ordering := some (sectionNextOrdering store),
                     subTitle := none, content := content }],
         [(q, sectionNextOrdering store, sectionFreshPk store)]) := by
  have h := @sectionSave_create_of_allSome store
      ⟨none, u, q, none, none, content⟩ rfl rfl hall
  simp [applyOp, h]

/-- The generalized invariant behind the strict-increase property: starting
from any store without null order values, with `created` the pks of the
watched sequence's earlier creates and `b` a floor value carried by a
surviving created record (or `0`), a self-preserving trace yields a strictly
increasing chain above `b`. -/
theorem chain_of_selfPreserving (p : Nat) :
    ∀ (ops : List Op) (store : List Section) (created : List Nat) (b : Nat),
    (∀ r ∈ store, r.ordering ≠ none) →
    selfPreserving store created p ops = true →
    (b = 0 ∨ ∃ k r, k ∈ created ∧ r ∈ store ∧ r.pk = some k ∧
       r.ordering = some b) →
    List.Chain' (· < ·) (b :: assignedValues store ops p) := by
  intro ops
  induction ops with
  | nil =>
    intro store created b _ _ _
    simp [assignedValues, runOps]
  | cons op ops ih =>
    intro store created b hall hsp hfloor
    rw [assignedValues_cons]
    rw [selfPreserving_cons] at hsp
    simp only [Bool.and_eq_true] at hsp
    rcases hsp with ⟨hop, hrest⟩
    cases op with
    | delete k =>
      rw [applyOp_delete]
      rw [applyOp_delete] at hrest
      simp only [List.filter_nil, List.map_nil, List.nil_append]
      apply ih _ created b
      · intro r hr
        exact hall r (List.mem_filter.mp hr).1
      · simpa [createdPks] using hrest
      · rcases hfloor with rfl | ⟨k', r, hk', hr, hrpk, hrord⟩
        · exact Or.inl rfl
        · refine Or.inr ⟨k', r, hk', List.mem_filter.mpr ⟨hr, ?_⟩, hrpk, hrord⟩
          rw [decide_eq_true_eq] at hop ⊢
          rw [hrpk]
          intro hEq
          injection hEq with hEq
          exact hop (hEq ▸ hk')
    | createAuto u q content =>
      rw [applyOp_createAuto store u q content hall]
      rw [applyOp_createAuto store u q content hall] at hrest
      have hall' : ∀ r ∈ store ++
          [{ pk := some (sectionFreshPk store), user := u, post := q,
             ordering := some (sectionNextOrdering store),
             subTitle := none, content := content }], r.ordering ≠ none := by
        intro r hr
        rcases List.mem_append.mp hr with hmem | hmem
        · exact hall r hmem
        · rw [List.mem_singleton.mp hmem]; simp
      by_cases hq : q = p
      · subst hq
        simp only [createdPks, List.filter_cons, List.filter_nil,
          decide_True, List.map_cons, List.map_nil, if_pos] at hrest ⊢
        have hstep : b < sectionNextOrdering store := by
          rcases hfloor with rfl | ⟨k', r, hk', hr, hrpk, hrord⟩
          · exact lt_of_lt_of_le Nat.zero_lt_one (sectionNextOrdering_pos store)
          · exact sectionNextOrdering_gt hr hrord
        refine List.chain'_cons.mpr ⟨hstep, ?_⟩
        apply ih _ (created ++ [sectionFreshPk store]) (sectionNextOrdering store)
          hall' hrest
        refine Or.inr ⟨sectionFreshPk store, _,
          List.mem_append_right _ (List.mem_singleton.mpr rfl),
          List.mem_append_right _ (List.mem_singleton.mpr rfl), rfl, rfl⟩
      · simp only [createdPks, List.filter_cons, List.filter_nil,
          List.map_nil, List.nil_append] at hrest ⊢
        rw [if_neg (by simpa using hq)] at hrest ⊢
        simp only [List.map_nil, List.nil_append, List.append_nil] at hrest ⊢
        apply ih _ created b hall' hrest
        rcases hfloor with rfl | ⟨k', r, hk', hr, hrpk, hrord⟩
        · exact Or.inl rfl
        · exact Or.inr ⟨k', r, hk', List.mem_append_left _ hr, hrpk, hrord⟩

/-- C5 (amended): over any interleaving of omitted-order creates and
deletions in which no deletion removes a record created by the watched
sequence itself, the order values assigned to the successive creates under
one post are strictly increasing (hence pairwise distinct) — deletions of
other records leave gaps that are never reused. -/
theorem assigned_order_values_strictly_increasing
    (store : List Section) (ops : List Op) (p : Nat)
    (hall : ∀ r ∈ store, r.ordering ≠ none)
    (hsp : selfPreserving store [] p ops = true) :
    List.Chain' (· < ·) (assignedValues store ops p) :=
  (chain_of_selfPreserving p ops store [] 0 hall hsp (Or.inl rfl)).tail

/-- Witness: seed record with order 5, then create (assigned 6), delete the
seed, create again (assigned 7) — the watched values 6, 7 are strictly
increasing. -/
theorem assigned_order_values_strictly_increasing_witness :
    List.Chain' (· < ·)
      (assignedValues [⟨some 1, 1, 1, some 5, none, "seed"⟩]
        [Op.createAuto 1 1 "first", Op.delete 1, Op.createAuto 1 1 "second"] 1) :=
  assigned_order_values_strictly_increasing
    [⟨some 1, 1, 1, some 5, none, "seed"⟩]
    [Op.createAuto 1 1 "first", Op.delete 1, Op.createAuto 1 1 "second"] 1
    (by intro r hr; rw [List.mem_singleton.mp hr]; decide)
    (by decide)

/-- C4 (amended): the storage schema declares no composite uniqueness
constraints at all; a duplicate (owner, order) pair is kept out of the store
only by the application-level check in `clean` on the save path, which
refuses to persist a record whose order value equals that of another record
of the same owner. -/
theorem uniqueness_enforced_only_in_application :
    (categoryTable.uniqueConstraints = [] ∧
     sectionTable.uniqueConstraints = [] ∧
     authorTable.uniqueConstraints = [] ∧
     postTable.uniqueConstraints = []) ∧
    (∀ (store : List Category) (c r : Category), r ∈ store → c.pk = none →
       r.pk ≠ none → r.user = c.user → r.ordering = c.ordering →
       ∀ out, categorySave store c ≠ Except.ok out) := by
  refine ⟨⟨rfl, rfl, rfl, rfl⟩, ?_⟩
  intro store c r hr hcpk hrpk hu ho out h
  unfold categorySave at h
  cases hcl : categoryClean store (categoryDeriveSlug c) with
  | error e => rw [hcl] at h; cases h
  | ok u =>
    have hmem : r ∈ categoryOrdDups store (categoryDeriveSlug c) :=
      mem_categoryOrdDups hr
        (by rw [categoryDeriveSlug_pk, hcpk]; exact hrpk)
        (by rw [categoryDeriveSlug_user]; exact hu)
        (by rw [categoryDeriveSlug_ordering]; exact ho)
    unfold categoryClean at hcl
    by_cases hA : (categorySlugDups store (categoryDeriveSlug c)).isEmpty = true
    · rw [if_pos hA] at hcl
      by_cases hB : (categoryOrdDups store (categoryDeriveSlug c)).isEmpty = true
      · rw [List.isEmpty_iff] at hB; rw [hB] at hmem; cases hmem
      · rw [if_neg hB] at hcl; cases hcl
    · rw [if_neg hA] at hcl; cases hcl

/-- Witness for the application-level rejection at a concrete duplicate. -/
theorem uniqueness_enforced_only_in_application_witness :
    categorySave [⟨some 1, 1, "Cat A", some "cat-a", some 3⟩]
        ⟨none, 1, "Cat B", some "cat-b", some 3⟩
      ≠ Except.ok ([], ⟨none, 1, "Cat B", some "cat-b", some 3⟩) :=
  uniqueness_enforced_only_in_application.2
    [⟨some 1, 1, "Cat A", some "cat-a", some 3⟩]
    ⟨none, 1, "Cat B", some "cat-b", some 3⟩
    ⟨some 1, 1, "Cat A", some "cat-a", some 3⟩
    (List.mem_singleton.mpr rfl) rfl (by decide) rfl rfl
    ([], ⟨none, 1, "Cat B", some "cat-b", some 3⟩)

/-- C6: slug uniqueness is enforced per owner for every entity with a slug
(Category, Author, Post): a create whose (possibly derived) slug equals the
slug of a persisted record of the same owner fails with the duplicate-slug
validation error — and an error result persists nothing — while a create
whose slug collides with no record of its own owner (in particular, the
same slug under a different owner) succeeds. -/
theorem slug_unique_per_owner :
    (∀ (store : List Category) (c r : Category), r ∈ store → c.pk = none →
       r.pk ≠ none → r.user = c.user → r.slug = (categoryDeriveSlug c).slug →
       categorySave store c = Except.error Err.duplicateSlug) ∧
    (∀ (store : List Author) (a r : Author), r ∈ store → a.pk = none →
       r.pk ≠ none → r.user = a.user → r.slug = (authorDeriveSlug a).slug →
       authorSave store a = Except.error Err.duplicateSlug) ∧
    (∀ (store : List Post) (p r : Post), r ∈ store → p.pk = none →
       r.pk ≠ none → r.user = p.user → r.slug = (postDeriveSlug p).slug →
       postSave store p = Except.error Err.duplicateSlug) ∧
    (∀ (store : List Category) (c : Category), c.pk = none →
       c.ordering = none → (∀ r ∈ store, r.ordering ≠ none) →
       (∀ r ∈ store, r.user = c.user → r.slug ≠ (categoryDeriveSlug c).slug) →
       ∃ out, categorySave store c = Except.ok out) ∧
    (∀ (store : List Author) (a : Author),
       (∀ r ∈ store, r.user = a.user → r.slug ≠ (authorDeriveSlug a).slug) →
       ∃ out, authorSave store a = Except.ok out) ∧
    (∀ (store : List Post) (p : Post),
       (∀ r ∈ store, r.user = p.user → r.slug ≠ (postDeriveSlug p).slug) →
       ∃ out, postSave store p = Except.ok out) := by
  refine ⟨?_, ?_, ?_, ?_, ?_, ?_⟩
  · intro store c r hr hcpk hrpk hu hs
    have hmem : r ∈ categorySlugDups store (categoryDeriveSlug c) :=
      mem_categorySlugDups hr
        (by rw [categoryDeriveSlug_pk, hcpk]; exact hrpk)
        (by rw [categoryDeriveSlug_user]; exact hu) hs
    unfold categorySave
    rw [categoryClean_err_of_slug_dup hmem]
  · intro store a r hr hapk hrpk hu hs
    unfold authorSave
    rw [authorClean_err_of_slug_dup hr
      (by rw [authorDeriveSlug_pk, hapk]; exact hrpk)
      (by rw [authorDeriveSlug_user]; exact hu) hs]
  · intro store p r hr hppk hrpk hu hs
    unfold postSave
    rw [postClean_err_of_slug_dup hr
      (by rw [postDeriveSlug_pk, hppk]; exact hrpk)
      (by rw [postDeriveSlug_user]; exact hu) hs]
  · intro store c hcpk hord hall hnoslug
    have h1 : categorySlugDups store (categoryDeriveSlug c) = [] := by
      unfold categorySlugDups
      rw [List.filter_eq_nil_iff]
      intro r hr
      rcases List.mem_filter.mp hr with ⟨hmem, hcond⟩
      rw [decide_eq_true_eq] at hcond
      simp
      exact absurd hcond.2
        (hnoslug r hmem (hcond.1.trans (categoryDeriveSlug_user c)))
    have h2 : categoryOrdDups store (categoryDeriveSlug c) = [] :=
      categoryOrdDups_of_none_allSome
        (by rw [categoryDeriveSlug_ordering]; exact hord) hall
    exact ⟨_, by unfold categorySave categoryClean; rw [h1, h2]; rfl⟩
  · intro store a hnoslug
    have h1 : authorSlugDups store (authorDeriveSlug a) = [] := by
      unfold authorSlugDups
      rw [List.filter_eq_nil_iff]
      intro r hr
      rcases List.mem_filter.mp hr with ⟨hmem, hcond⟩
      rw [decide_eq_true_eq] at hcond
      simp
      exact absurd hcond.2
        (hnoslug r hmem (hcond.1.trans (authorDeriveSlug_user a)))
    exact ⟨_, by unfold authorSave authorClean; rw [h1]; rfl⟩
  · intro store p hnoslug
    have h1 : postSlugDups store (postDeriveSlug p) = [] := by
      unfold postSlugDups
      rw [List.filter_eq_nil_iff]
      intro r hr
      rcases List.mem_filter.mp hr with ⟨hmem, hcond⟩
      rw [decide_eq_true_eq] at hcond
      simp
      exact absurd hcond.2
        (hnoslug r hmem (hcond.1.trans (postDeriveSlug_user p)))
    exact ⟨_, by unfold postSave postClean; rw [h1]; rfl⟩

/-- Witness for the per-owner slug-uniqueness theorem: under owner 1 a
second category named alike is rejected; the same name under owner 2
succeeds. -/
theorem slug_unique_per_owner_witness :
    categorySave [⟨some 1, 1, "Shoes", some "shoes", some 1⟩]
        ⟨none, 1, "Shoes", none, none⟩
      = Except.error Err.duplicateSlug ∧
    (∃ out, categorySave [⟨some 1, 1, "Shoes", some "shoes", some 1⟩]
        ⟨none, 2, "Shoes", none, none⟩ = Except.ok out) :=
  ⟨slug_unique_per_owner.1
      [⟨some 1, 1, "Shoes", some "shoes", some 1⟩]
      ⟨none, 1, "Shoes", none, none⟩
      ⟨some 1, 1, "Shoes", some "shoes", some 1⟩
      (List.mem_singleton.mpr rfl) rfl (by decide) rfl (by decide),
   slug_unique_per_owner.2.2.2.1
      [⟨some 1, 1, "Shoes", some "shoes", some 1⟩]
      ⟨none, 2, "Shoes", none, none⟩ rfl rfl
      (by intro r hr; rw [List.mem_singleton.mp hr]; decide)
      (by intro r hr h; rw [List.mem_singleton.mp hr] at h; cases h)⟩

/-- C7: updating a persisted record while keeping its current slug and
order value succeeds — both uniqueness querysets exclude the record's own
pk, so a record never conflicts with itself — and the store is left with
the same records.  Stated for `Category` (slug and order) and `Section`
(order); the hypotheses say the store is a well-formed one: pks identify
records and the per-owner uniqueness invariants hold for the others. -/
theorem self_update_keeps_own_values :
    (∀ (store : List Category) (c : Category), c ∈ store → c.pk ≠ none →
       slugFalsy c.slug = false → c.ordering ≠ none →
       (∀ r ∈ store, r.pk = c.pk → r = c) →
       (∀ r ∈ store, r.pk ≠ c.pk → ¬(r.user = c.user ∧ r.slug = c.slug)) →
       (∀ r ∈ store, r.pk ≠ c.pk → ¬(r.user = c.user ∧ r.ordering = c.ordering)) →
       categorySave store c = Except.ok (store, c)) ∧
    (∀ (store : List Section) (s : Section), s ∈ store → s.pk ≠ none →
       s.ordering ≠ none →
       (∀ r ∈ store, r.pk = s.pk → r = s) →
       (∀ r ∈ store, r.pk ≠ s.pk → ¬(r.user = s.user ∧ r.ordering = s.ordering)) →
       sectionSave store s = Except.ok (store, s)) := by
  constructor
  · intro store c hc hpk hfalsy hord huniq hnoslug hnoord
    have hder : categoryDeriveSlug c = c := by
      unfold categoryDeriveSlug; rw [hfalsy]; rfl
    have h1 : categorySlugDups store c = [] := by
      unfold categorySlugDups
      rw [List.filter_eq_nil_iff]
      intro r hr hq
      rcases List.mem_filter.mp hr with ⟨hmem, hcond⟩
      rw [decide_eq_true_eq] at hcond hq
      exact hnoslug r hmem hq hcond
    have h2 : categoryOrdDups store c = [] := by
      unfold categoryOrdDups
      rw [List.filter_eq_nil_iff]
      intro r hr hq
      rcases List.mem_filter.mp hr with ⟨hmem, hcond⟩
      rw [decide_eq_true_eq] at hcond hq
      exact hnoord r hmem hq hcond
    rcases Option.ne_none_iff_exists'.mp hord with ⟨v, hv⟩
    rcases Option.ne_none_iff_exists'.mp hpk with ⟨k, hk⟩
    have hmap : store.map (fun r => if r.pk = some k then c else r) = store := by
      conv_rhs => rw [← List.map_id store]
      apply List.map_congr_left
      intro a ha
      by_cases hak : a.pk = some k
      · simp only [hak, if_pos]
        exact (huniq a ha (by rw [hak, hk])).symm
      · simp [hak]
    unfold categorySave categoryClean
    rw [hder, h1, h2]
    rw [categoryPreSave_of_some hv]
    unfold categoryPersist
    simp only [hk, hmap]
    rfl
  · intro store s hs hpk hord huniq hnoord
    have h1 : sectionOrdDups store s = [] := by
      unfold sectionOrdDups
      rw [List.filter_eq_nil_iff]
      intro r hr hq
      rcases List.mem_filter.mp hr with ⟨hmem, hcond⟩
      rw [decide_eq_true_eq] at hcond hq
      exact hnoord r hmem hq hcond
    rcases Option.ne_none_iff_exists'.mp hord with ⟨v, hv⟩
    rcases Option.ne_none_iff_exists'.mp hpk with ⟨k, hk⟩
    have hmap : store.map (fun r => if r.pk = some k then s else r) = store := by
      conv_rhs => rw [← List.map_id store]
      apply List.map_congr_left
      intro a ha
      by_cases hak : a.pk = some k
      · simp only [hak, if_pos]
        exact (huniq a ha (by rw [hak, hk])).symm
      · simp [hak]
    unfold sectionSave sectionClean
    rw [h1]
    rw [sectionPreSave_of_some hv]
    unfold sectionPersist
    simp only [hk, hmap]
    rfl

/-- Witness: re-saving a stored category and a stored section with their own
values succeeds. -/
theorem self_update_keeps_own_values_witness :
    categorySave [⟨some 1, 1, "Cat A", some "cat-a", some 1⟩]
        ⟨some 1, 1, "Cat A", some "cat-a", some 1⟩
      = Except.ok ([⟨some 1, 1, "Cat A", some "cat-a", some 1⟩],
                   ⟨some 1, 1, "Cat A", some "cat-a", some 1⟩) ∧
    sectionSave [⟨some 1, 1, 1, some 1, none, "body"⟩]
        ⟨some 1, 1, 1, some 1, none, "body"⟩
      = Except.ok ([⟨some 1, 1, 1, some 1, none, "body"⟩],
                   ⟨some 1, 1, 1, some 1, none, "body"⟩) :=
  ⟨self_update_keeps_own_values.1
      [⟨some 1, 1, "Cat A", some "cat-a", some 1⟩]
      ⟨some 1, 1, "Cat A", some "cat-a", some 1⟩
      (List.mem_singleton.mpr rfl) (by decide) (by decide) (by decide)
      (by intro r hr _; exact List.mem_singleton.mp hr)
      (by intro r hr h; rw [List.mem_singleton.mp hr] at h; exact absurd rfl h)
      (by intro r hr h; rw [List.mem_singleton.mp hr] at h; exact absurd rfl h),
   self_update_keeps_own_values.2
      [⟨some 1, 1, 1, some 1, none, "body"⟩]
      ⟨some 1, 1, 1, some 1, none, "body"⟩
      (List.mem_singleton.mpr rfl) (by decide) (by decide)
      (by intro r hr _; exact List.mem_singleton.mp hr)
      (by intro r hr h; rw [List.mem_singleton.mp hr] at h; exact absurd rfl h)⟩

/-- C9: a create without a slug gets exactly `slugify(name)` — never a
disambiguated variant — and since derivation precedes `full_clean`, a
derived slug that collides with a persisted same-owner slug is rejected
with the duplicate-slug validation error. -/
theorem derived_slug_exact_and_checked (store : List Category) (c : Category)
    (hpk : c.pk = none) (hfalsy : slugFalsy c.slug = true) :
    (∀ (s' : List Category) (c' : Category),
       categorySave store c = Except.ok (s', c') →
       c'.slug = some (slugify c.name)) ∧
    ((∃ r, r ∈ store ∧ r.pk ≠ none ∧ r.user = c.user ∧
        r.slug = some (slugify c.name)) →
       categorySave store c = Except.error Err.duplicateSlug) := by
  have hder : categoryDeriveSlug c = { c with slug := some (slugify c.name) } := by
    unfold categoryDeriveSlug; rw [hfalsy]; rfl
  constructor
  · intro s' c' h
    unfold categorySave at h
    cases hcl : categoryClean store (categoryDeriveSlug c) with
    | error e => rw [hcl] at h; cases h
    | ok u =>
      rw [hcl] at h
      injection h with h
      obtain ⟨rfl, rfl⟩ : s' = _ ∧ c' = _ :=
        ⟨(congrArg Prod.fst h).symm, (congrArg Prod.snd h).symm⟩
      rw [categoryPersist_snd_slug, categoryPreSave_slug, hder]
  · intro hdup
    rcases hdup with ⟨r, hr, hrpk, hu, hs⟩
    have hmem : r ∈ categorySlugDups store (categoryDeriveSlug c) :=
      mem_categorySlugDups hr
        (by rw [categoryDeriveSlug_pk, hpk]; exact hrpk)
        (by rw [categoryDeriveSlug_user]; exact hu)
        (by rw [hder]; exact hs)
    unfold categorySave
    rw [categoryClean_err_of_slug_dup hmem]

/-- Witness: the derived slug of "My Post" is "my-post", and the derived
collision with a same-owner record holding that slug is rejected. -/
theorem derived_slug_exact_and_checked_witness :
    (⟨some 1, 1, "My Post", some "my-post", some 1⟩ : Category).slug
      = some (slugify "My Post") ∧
    categorySave [⟨some 1, 1, "Other Name", some "my-post", some 9⟩]
        ⟨none, 1, "My Post", none, none⟩
      = Except.error Err.duplicateSlug :=
  ⟨(derived_slug_exact_and_checked [] ⟨none, 1, "My Post", none, none⟩
      rfl rfl).1
      [⟨some 1, 1, "My Post", some "my-post", some 1⟩]
      ⟨some 1, 1, "My Post", some "my-post", some 1⟩ rfl,
   (derived_slug_exact_and_checked
      [⟨some 1, 1, "Other Name", some "my-post", some 9⟩]
      ⟨none, 1, "My Post", none, none⟩ rfl rfl).2
      ⟨⟨some 1, 1, "Other Name", some "my-post", some 9⟩,
        List.mem_singleton.mpr rfl, by decide, rfl, by decide⟩⟩

/-- C10 (amended): every successfully persisted Category/Section carries a
non-null order value — the store invariant "all orderings present" is
preserved by every successful save — and whenever the caller omitted the
value, the assigned one is positive.  (Positivity for caller-supplied
values does not hold: `0` is accepted, see the counterexample.) -/
theorem saved_records_carry_order_values :
    (∀ (store s' : List Category) (c c' : Category),
       (∀ r ∈ store, r.ordering ≠ none) →
       categorySave store c = Except.ok (s', c') →
       (∀ r ∈ s', r.ordering ≠ none) ∧
       (c.ordering = none →
          c'.ordering = some (categoryNextOrdering store) ∧
          1 ≤ categoryNextOrdering store)) ∧
    (∀ (store s' : List Section) (s c' : Section),
       (∀ r ∈ store, r.ordering ≠ none) →
       sectionSave store s = Except.ok (s', c') →
       (∀ r ∈ s', r.ordering ≠ none) ∧
       (s.ordering = none →
          c'.ordering = some (sectionNextOrdering store) ∧
          1 ≤ sectionNextOrdering store)) := by
  constructor
  · intro store s' c c' hall h
    unfold categorySave at h
    cases hcl : categoryClean store (categoryDeriveSlug c) with
    | error e => rw [hcl] at h; cases h
    | ok u =>
      rw [hcl] at h
      injection h with h
      obtain ⟨rfl, rfl⟩ : s' = _ ∧ c' = _ :=
        ⟨(congrArg Prod.fst h).symm, (congrArg Prod.snd h).symm⟩
      constructor
      · intro r hr
        rcases categoryPersist_fst_mem hr with hmem | rfl
        · exact hall r hmem
        · rw [categoryPersist_snd_ordering]
          exact categoryPreSave_ordering_ne_none store _
      · intro hnone
        have hd : (categoryDeriveSlug c).ordering = none := by
          rw [categoryDeriveSlug_ordering]; exact hnone
        rw [categoryPersist_snd_ordering, categoryPreSave_of_none hd]
        exact ⟨rfl, categoryNextOrdering_pos store⟩
  · intro store s' s c' hall h
    unfold sectionSave at h
    cases hcl : sectionClean store s with
    | error e => rw [hcl] at h; cases h
    | ok u =>
      rw [hcl] at h
      injection h with h
      obtain ⟨rfl, rfl⟩ : s' = _ ∧ c' = _ :=
        ⟨(congrArg Prod.fst h).symm, (congrArg Prod.snd h).symm⟩
      constructor
      · intro r hr
        rcases sectionPersist_fst_mem hr with hmem | rfl
        · exact hall r hmem
        · rw [sectionPersist_snd_ordering]
          exact sectionPreSave_ordering_ne_none store _
      · intro hnone
        rw [sectionPersist_snd_ordering, sectionPreSave_of_none hnone]
        exact ⟨rfl, sectionNextOrdering_pos store⟩

/-- Witness: on an omitted-order create from the empty store the saved
record's order value is `1`. -/
theorem saved_records_carry_order_values_witness :
    (∀ r ∈ [(⟨some 1, 1, "Cat A", some "cat-a", some 1⟩ : Category)],
       r.ordering ≠ none) ∧
    (⟨some 1, 1, "Cat A", some "cat-a", some 1⟩ : Category).ordering
      = some (categoryNextOrdering []) ∧
    1 ≤ categoryNextOrdering [] :=
  ⟨((saved_records_carry_order_values.1 []
      [⟨some 1, 1, "Cat A", some "cat-a", some 1⟩]
      ⟨none, 1, "Cat A", none, none⟩
      ⟨some 1, 1, "Cat A", some "cat-a", some 1⟩
      (by intro r hr; cases hr) rfl).1 : _),
   (saved_records_carry_order_values.1 []
      [⟨some 1, 1, "Cat A", some "cat-a", some 1⟩]
      ⟨none, 1, "Cat A", none, none⟩
      ⟨some 1, 1, "Cat A", some "cat-a", some 1⟩
      (by intro r hr; cases hr) rfl).2 rfl⟩

/-- C8: a missing or dangling `unique_to` configuration is reported by
`OrderField._check_field_attribute` as a system-check error, which keeps the
system from starting, and with a valid configuration the runtime scope
lookup `getattr(instance, unique_to)` inside `pre_save` cannot fail for any
instance carrying the model's fields. -/
theorem orderfield_config_error_detected_at_startup
    (cfg : OrderFieldConfig) (meta : ModelMeta) :
    ((cfg.uniqueTo = none ∨ (∀ f, cfg.uniqueTo = some f → f ∉ meta.fields)) →
       checkFieldAttribute cfg meta ≠ [] ∧ systemStarts cfg meta = false) ∧
    (systemStarts cfg meta = true →
       ∀ inst : instAttrs, (∀ f ∈ meta.fields, (inst.lookup f).isSome) →
         ∃ v, orderFieldGetScope cfg inst = Except.ok v) := by
  constructor
  · intro hbad
    cases hu : cfg.uniqueTo with
    | none =>
      constructor
      · simp [checkFieldAttribute, hu]
      · simp [systemStarts, checkFieldAttribute, hu]
    | some f =>
      rcases hbad with hnone | hmiss
      · rw [hu] at hnone; cases hnone
      · have hf : f ∉ meta.fields := hmiss f hu
        constructor
        · simp [checkFieldAttribute, hu, hf]
        · simp [systemStarts, checkFieldAttribute, hu, hf]
  · intro hok inst hinst
    cases hu : cfg.uniqueTo with
    | none => simp [systemStarts, checkFieldAttribute, hu] at hok
    | some f =>
      by_cases hf : f ∈ meta.fields
      · have := hinst f hf
        rcases Option.isSome_iff_exists.mp this with ⟨v, hv⟩
        exact ⟨v, by simp [orderFieldGetScope, hu, hv]⟩
      · simp [systemStarts, checkFieldAttribute, hu, hf] at hok

/-- Witness for the configuration-check theorem at a concrete configuration
and instance. -/
theorem orderfield_config_error_detected_at_startup_witness :
    (checkFieldAttribute ⟨some "missing"⟩ ⟨["user", "ordering"]⟩ ≠ [] ∧
     systemStarts ⟨some "missing"⟩ ⟨["user", "ordering"]⟩ = false) ∧
    (∃ v, orderFieldGetScope ⟨some "user"⟩ [("user", 7), ("ordering", 1)]
            = Except.ok v) :=
  ⟨(orderfield_config_error_detected_at_startup
      (OrderFieldConfig.mk (some "missing")) (ModelMeta.mk ["user", "ordering"])).1
      (Or.inr (by intro f hf; cases hf; decide)),
   (orderfield_config_error_detected_at_startup
      (OrderFieldConfig.mk (some "user")) (ModelMeta.mk ["user", "ordering"])).2
      (by decide) [("user", 7), ("ordering", 1)] (by decide)⟩

end Blog
